import Mathlib

/-!
Verification of the ant-clustering simulation repository.

The development shallowly embeds the core of the repository:
`src/objects/grid.py` (class `GridWorld`), `src/helpers/metrics.py`
(`calculate_clustering_quality`), `src/objects/ant.py` (classes `Ant` and
`RuleBasedAnt`), and `src/objects/simulation.py` (class `Simulation`).
Python floats are modelled as rationals, numpy integer arrays as total
functions on integer pairs, and the pseudo-random draws consumed by the
stochastic rules are passed in explicitly as inputs (a "random tape").
-/

/-- Python-level exceptions that the embedded constructors can raise:
`ValueError` (numpy rejects negative array dimensions), `ZeroDivisionError`
(`num_objects // num_colors` with `num_colors == 0`), and `TypeError`
(calling a constructor with a missing required positional argument). -/
inductive PyError where
  | valueError
  | zeroDivisionError
  | typeError
deriving DecidableEq

/-- Truncation toward zero, as Python `int()` applied to a real number. -/
def ratTrunc (q : ℚ) : Int := if 0 ≤ q then ⌊q⌋ else ⌈q⌉

/-- The 2D bounded grid world of `src/objects/grid.py`.  The numpy array
`self.grid` is kept as a total function on integer coordinate pairs (only
in-bounds entries are ever read through the accessors below), and the
`empty_cells` set as a finite set of coordinate pairs. -/
structure GridWorld where
  height : Int
  width : Int
  num_colors : Int
  grid : Int × Int → Int
  empty_cells : Finset (Int × Int)

/-- `GridWorld.is_valid`: check if a position is within grid bounds. -/
def GridWorld.is_valid (g : GridWorld) (row col : Int) : Bool :=
  decide (0 ≤ row ∧ row < g.height ∧ 0 ≤ col ∧ col < g.width)

/-- `GridWorld.get`: the value at a position, or 0 if out of bounds. -/
def GridWorld.get (g : GridWorld) (row col : Int) : Int :=
  if g.is_valid row col then g.grid (row, col) else 0

/-- `GridWorld.set`: write a value at a position (no-op out of bounds),
updating the `empty_cells` set exactly as the source does. -/
def GridWorld.set (g : GridWorld) (row col value : Int) : GridWorld :=
  if g.is_valid row col then
    let old_value := g.grid (row, col)
    { g with
      grid := Function.update g.grid (row, col) value,
      empty_cells :=
        if old_value ≠ 0 ∧ value = 0 then insert (row, col) g.empty_cells
        else if old_value = 0 ∧ value ≠ 0 then g.empty_cells.erase (row, col)
        else g.empty_cells }
  else g

/-- `GridWorld.is_empty`: whether `get` returns 0 at the position. -/
def GridWorld.is_empty (g : GridWorld) (row col : Int) : Bool :=
  g.get row col == 0

/-- The values taken by `dr` (and `dc`) in `GridWorld.get_neighbors`:
Python `range(-radius, radius + 1)`. -/
def deltaRange (radius : Nat) : List Int :=
  (List.range (2 * radius + 1)).map fun (i : Nat) => (i : Int) - (radius : Int)

/-- `GridWorld.get_neighbors`: the two nested `for dr / for dc` loops of the
source enumerate delta pairs in row-major order; a pair is skipped when it is
`(0, 0)`, and appended together with the raw array value when the resulting
position is in bounds. -/
def GridWorld.get_neighbors (g : GridWorld) (row col : Int) (radius : Nat) :
    List (Int × Int × Int) :=
  ((deltaRange radius).flatMap fun dr =>
    (deltaRange radius).map fun dc => (dr, dc)).filterMap fun d =>
      if d ≠ (0, 0) ∧ g.is_valid (row + d.1) (col + d.2) then
        some (row + d.1, col + d.2, g.grid (row + d.1, col + d.2))
      else none

/-- `GridWorld.get_local_similarity`: fraction of the in-bounds neighbors
(radius 1) whose stored value equals `color`; `0.0` when the neighbor list is
empty. -/
def GridWorld.get_local_similarity (g : GridWorld) (row col color : Int) : ℚ :=
  let neighbors := g.get_neighbors row col 1
  if neighbors = [] then 0
  else ((neighbors.countP fun t => t.2.2 == color : Nat) : ℚ) / (neighbors.length : ℚ)

/-- `calculate_clustering_quality` from `src/helpers/metrics.py`: collect the
local similarity of every occupied cell (row-major scan over the grid) and
return the mean, or `0.0` when no cell is occupied. -/
def calculate_clustering_quality (g : GridWorld) : ℚ :=
  let similarities := (List.range g.height.toNat).flatMap fun (r : Nat) =>
    (List.range g.width.toNat).filterMap fun (c : Nat) =>
      let color := g.get r c
      if color ≠ 0 then some (g.get_local_similarity r c color) else none
  if similarities = [] then 0
  else similarities.sum / (similarities.length : ℚ)

/-! ### Generic list helpers -/

theorem filterMap_if_length {α β : Type} (l : List α) (p : α → Prop) [DecidablePred p]
    (f : α → β) :
    (l.filterMap fun a => if p a then some (f a) else none).length
      = l.countP fun a => decide (p a) := by
  induction l with
  | nil => rfl
  | cons a l ih =>
    by_cases h : p a <;> simp [List.filterMap_cons, h, List.countP_cons, ih]

theorem filterMap_if_countP {α β : Type} (l : List α) (p : α → Prop) [DecidablePred p]
    (f : α → β) (q : β → Bool) :
    ((l.filterMap fun a => if p a then some (f a) else none).countP q)
      = l.countP fun a => decide (p a) && q (f a) := by
  induction l with
  | nil => rfl
  | cons a l ih =>
    by_cases h : p a <;> simp [List.filterMap_cons, h, List.countP_cons, ih]

/-! ### The neighbor counts behind `get_local_similarity` -/

/-- The eight neighbor offsets `(dr, dc)` that `get_neighbors` enumerates at
radius 1, in enumeration order. -/
def neighborOffsets : List (Int × Int) :=
  [(-1, -1), (-1, 0), (-1, 1), (0, -1), (0, 1), (1, -1), (1, 0), (1, 1)]

/-- Number of in-bounds neighbor cells of a position (radius 1), empty cells
included. -/
def inboundsNeighborCount (g : GridWorld) (row col : Int) : Nat :=
  neighborOffsets.countP fun d => g.is_valid (row + d.1) (col + d.2)

/-- Number of in-bounds neighbor cells whose (bounded) read equals `color`. -/
def matchingNeighborCount (g : GridWorld) (row col color : Int) : Nat :=
  neighborOffsets.countP fun d =>
    g.is_valid (row + d.1) (col + d.2) && (g.get (row + d.1) (col + d.2) == color)

theorem deltaPairs_one :
    ((deltaRange 1).flatMap fun dr => (deltaRange 1).map fun dc => (dr, dc))
      = [(-1, -1), (-1, 0), (-1, 1), (0, -1), (0, 0), (0, 1), (1, -1), (1, 0), (1, 1)] := by
  decide

theorem countP_deltaPairs (X : Int × Int → Bool) :
    (((deltaRange 1).flatMap fun dr => (deltaRange 1).map fun dc => (dr, dc)).countP
        fun d => decide (d ≠ (0, 0)) && X d)
      = neighborOffsets.countP X := by
  rw [deltaPairs_one]
  simp [List.countP_cons, neighborOffsets]

theorem neighbors_length (g : GridWorld) (row col : Int) :
    (g.get_neighbors row col 1).length = inboundsNeighborCount g row col := by
  rw [GridWorld.get_neighbors, filterMap_if_length, inboundsNeighborCount]
  rw [← countP_deltaPairs fun d => g.is_valid (row + d.1) (col + d.2)]
  exact List.countP_congr fun d _ => by simp

theorem neighbors_countP (g : GridWorld) (row col color : Int) :
    ((g.get_neighbors row col 1).countP fun t => t.2.2 == color)
      = matchingNeighborCount g row col color := by
  rw [GridWorld.get_neighbors, filterMap_if_countP]
  rw [matchingNeighborCount,
    ← countP_deltaPairs fun d =>
      g.is_valid (row + d.1) (col + d.2) && (g.get (row + d.1) (col + d.2) == color)]
  refine List.countP_congr fun d _ => ?_
  by_cases hv : g.is_valid (row + d.1) (col + d.2) <;>
    simp [GridWorld.get, hv]

theorem get_local_similarity_nonneg (g : GridWorld) (row col color : Int) :
    0 ≤ g.get_local_similarity row col color := by
  rw [GridWorld.get_local_similarity]
  by_cases h : g.get_neighbors row col 1 = []
  · simp [h]
  · simp only [h, if_false]
    positivity

theorem get_local_similarity_le_one (g : GridWorld) (row col color : Int) :
    g.get_local_similarity row col color ≤ 1 := by
  rw [GridWorld.get_local_similarity]
  by_cases h : g.get_neighbors row col 1 = []
  · simp [h]
  · have hlen : 0 < (g.get_neighbors row col 1).length := List.length_pos.mpr h
    have hle : ((g.get_neighbors row col 1).countP fun t => t.2.2 == color)
        ≤ (g.get_neighbors row col 1).length := List.countP_le_length _
    simp only [h, if_false]
    rw [div_le_one (by exact_mod_cast hlen)]
    exact_mod_cast hle

theorem get_local_similarity_eq_counts (g : GridWorld) (row col color : Int) :
    g.get_local_similarity row col color
      = (matchingNeighborCount g row col color : ℚ) / (inboundsNeighborCount g row col : ℚ) := by
  rw [GridWorld.get_local_similarity]
  by_cases h : g.get_neighbors row col 1 = []
  · have h0 : inboundsNeighborCount g row col = 0 := by
      rw [← neighbors_length, h]; rfl
    simp [h, h0]
  · simp only [h, if_false]
    rw [neighbors_length, neighbors_countP]

/-- Claim C7: `get_local_similarity` returns the number of in-bounds neighbor
cells (empty ones included) whose value equals the color, divided by the total
number of in-bounds neighbors; the result is always in `[0, 1]`, and it is `0`
at the origin of a 1×1 grid, which has no in-bounds neighbors. -/
theorem local_similarity_spec (g : GridWorld) (row col color : Int) :
    (0 ≤ g.get_local_similarity row col color ∧ g.get_local_similarity row col color ≤ 1)
    ∧ g.get_local_similarity row col color
        = (matchingNeighborCount g row col color : ℚ) / (inboundsNeighborCount g row col : ℚ)
    ∧ (g.height = 1 → g.width = 1 → g.get_local_similarity 0 0 color = 0) := by
  refine ⟨⟨get_local_similarity_nonneg g row col color,
    get_local_similarity_le_one g row col color⟩,
    get_local_similarity_eq_counts g row col color, fun h1 hw => ?_⟩
  have h0 : inboundsNeighborCount g 0 0 = 0 := by
    rw [inboundsNeighborCount]
    refine List.countP_eq_zero.mpr fun d hd => ?_
    fin_cases hd <;> simp [GridWorld.is_valid, h1, hw]
  rw [get_local_similarity_eq_counts, h0]
  simp

/-- Witness for C7 at concrete inputs: a 1×2 grid `[1, 0]` (bounds and the
count formula at its occupied cell) and a 1×1 grid (zero-neighbor case). -/
def gW7 : GridWorld :=
  { height := 1, width := 2, num_colors := 1,
    grid := fun p => if p = ((0 : Int), (0 : Int)) then 1 else 0,
    empty_cells := {((0 : Int), (1 : Int))} }

def gW7one : GridWorld :=
  { height := 1, width := 1, num_colors := 1,
    grid := fun _ => 0, empty_cells := {((0 : Int), (0 : Int))} }

theorem local_similarity_spec_w :
    (0 ≤ gW7.get_local_similarity 0 0 1 ∧ gW7.get_local_similarity 0 0 1 ≤ 1)
    ∧ gW7.get_local_similarity 0 0 1
        = (matchingNeighborCount gW7 0 0 1 : ℚ) / (inboundsNeighborCount gW7 0 0 : ℚ)
    ∧ gW7one.get_local_similarity 0 0 1 = 0 :=
  ⟨(local_similarity_spec gW7 0 0 1).1, (local_similarity_spec gW7 0 0 1).2.1,
    (local_similarity_spec gW7one 0 0 1).2.2 rfl rfl⟩

/-! ### Claim C1: the clustering-quality metric -/

theorem filterMap_if_map {α β γ : Type} (l : List α) (p : α → Prop) [DecidablePred p]
    (f : α → β) (h : β → γ) :
    (l.filterMap fun a => if p a then some (f a) else none).map h
      = l.filterMap fun a => if p a then some (h (f a)) else none := by
  induction l with
  | nil => rfl
  | cons a l ih =>
    by_cases hp : p a <;> simp [List.filterMap_cons, hp, ih]

/-- The occupied cells of the grid, in the row-major scan order used by
`calculate_clustering_quality`. -/
def occupiedPositions (g : GridWorld) : List (Int × Int) :=
  (List.range g.height.toNat).flatMap fun (r : Nat) =>
    (List.range g.width.toNat).filterMap fun (c : Nat) =>
      if g.get r c ≠ 0 then some ((r : Int), (c : Int)) else none

theorem clustering_quality_similarities (g : GridWorld) :
    ((List.range g.height.toNat).flatMap fun (r : Nat) =>
      (List.range g.width.toNat).filterMap fun (c : Nat) =>
        if g.get r c ≠ 0 then some (g.get_local_similarity r c (g.get r c)) else none)
      = (occupiedPositions g).map fun p =>
          (matchingNeighborCount g p.1 p.2 (g.get p.1 p.2) : ℚ)
            / (inboundsNeighborCount g p.1 p.2 : ℚ) := by
  rw [occupiedPositions, List.map_flatMap]
  refine List.flatMap_congr ?_
  intro r _
  rw [filterMap_if_map]
  refine List.filterMap_congr fun c _ => ?_
  by_cases h : g.get r c ≠ 0 <;>
    simp [h, get_local_similarity_eq_counts]

/-- Claim C1 (amended): for every occupied cell the metric computes the
fraction of ALL in-bounds neighbors (occupied or empty) sharing the cell's
color — not the fraction of occupied neighbors only — and returns the average
of these fractions over the occupied cells; the result lies in `[0, 1]` and is
`0` when the grid has no occupied cell. -/
theorem clustering_quality_spec (g : GridWorld) :
    (0 ≤ calculate_clustering_quality g ∧ calculate_clustering_quality g ≤ 1)
    ∧ calculate_clustering_quality g
        = ((occupiedPositions g).map fun p =>
            (matchingNeighborCount g p.1 p.2 (g.get p.1 p.2) : ℚ)
              / (inboundsNeighborCount g p.1 p.2 : ℚ)).sum
          / ((occupiedPositions g).length : ℚ)
    ∧ (occupiedPositions g = [] → calculate_clustering_quality g = 0) := by
  have hq : calculate_clustering_quality g
      = ((occupiedPositions g).map fun p =>
          (matchingNeighborCount g p.1 p.2 (g.get p.1 p.2) : ℚ)
            / (inboundsNeighborCount g p.1 p.2 : ℚ)).sum
        / ((occupiedPositions g).length : ℚ) := by
    rw [calculate_clustering_quality]
    simp only [clustering_quality_similarities g]
    by_cases h : occupiedPositions g = []
    · simp [h]
    · have hne : (occupiedPositions g).map (fun p =>
          (matchingNeighborCount g p.1 p.2 (g.get p.1 p.2) : ℚ)
            / (inboundsNeighborCount g p.1 p.2 : ℚ)) ≠ [] := by
        simpa using h
      simp only [hne, if_false, List.length_map]
  have hmem : ∀ x ∈ (occupiedPositions g).map (fun p =>
      (matchingNeighborCount g p.1 p.2 (g.get p.1 p.2) : ℚ)
        / (inboundsNeighborCount g p.1 p.2 : ℚ)), 0 ≤ x ∧ x ≤ 1 := by
    intro x hx
    rcases List.mem_map.mp hx with ⟨p, _, rfl⟩
    rw [← get_local_similarity_eq_counts]
    exact ⟨get_local_similarity_nonneg g p.1 p.2 (g.get p.1 p.2),
      get_local_similarity_le_one g p.1 p.2 (g.get p.1 p.2)⟩
  refine ⟨?_, hq, fun h => by simp [hq, h]⟩
  rw [hq]
  rcases Nat.eq_zero_or_pos (occupiedPositions g).length with h0 | h0
  · rw [List.length_eq_zero.mp h0]
    simp
  constructor
  · have := List.sum_nonneg fun x hx => (hmem x hx).1
    positivity
  · rw [div_le_one (by exact_mod_cast h0)]
    have := List.sum_le_card_nsmul _ 1 fun x hx => (hmem x hx).2
    simpa using this

/-- The clustering metric as claim C1 words it (for comparison with the
implementation): for each occupied cell the fraction of its OCCUPIED
neighbors that share its color (taken as 0 when it has no occupied
neighbor), averaged over the occupied cells. -/
def clusteringQualityClaimC1 (g : GridWorld) : ℚ :=
  let fracs := (occupiedPositions g).map fun p =>
    let occ := (g.get_neighbors p.1 p.2 1).filter fun t => t.2.2 ≠ 0
    if occ = [] then 0
    else ((occ.countP fun t => t.2.2 == g.get p.1 p.2 : Nat) : ℚ) / (occ.length : ℚ)
  if fracs = [] then 0 else fracs.sum / (fracs.length : ℚ)

/-- A 1×3 grid `[1, 1, 0]`. -/
def gC1 : GridWorld :=
  { height := 1, width := 3, num_colors := 2,
    grid := fun p => if p = ((0 : Int), (0 : Int)) then 1
                     else if p = ((0 : Int), (1 : Int)) then 1 else 0,
    empty_cells := {((0 : Int), (2 : Int))} }

/-- Claim C1 counterexample: on the 1×3 grid `[1, 1, 0]` the implemented
metric averages fractions over ALL in-bounds neighbors (giving 3/4: cell
(0,0) scores 1/1, cell (0,1) scores 1/2 because its empty neighbor counts in
the denominator), while the fraction-of-occupied-neighbors metric described
by the claim gives 1. -/
theorem clustering_quality_counterexample :
    calculate_clustering_quality gC1 = 3 / 4
    ∧ clusteringQualityClaimC1 gC1 = 1
    ∧ (3 / 4 : ℚ) ≠ 1 := by
  have hocc : occupiedPositions gC1 = [((0 : Int), (0 : Int)), ((0 : Int), (1 : Int))] := by
    decide
  refine ⟨?_, ?_, by norm_num⟩
  · rw [calculate_clustering_quality]
    simp only [clustering_quality_similarities gC1, hocc, List.map_cons, List.map_nil]
    rw [show matchingNeighborCount gC1 0 0 (gC1.get 0 0) = 1 from by decide,
      show inboundsNeighborCount gC1 0 0 = 1 from by decide,
      show matchingNeighborCount gC1 0 1 (gC1.get 0 1) = 1 from by decide,
      show inboundsNeighborCount gC1 0 1 = 2 from by decide]
    norm_num
    simp
  · rw [clusteringQualityClaimC1]
    simp only [hocc, List.map_cons, List.map_nil]
    rw [show ((gC1.get_neighbors 0 0 1).filter fun t => t.2.2 ≠ 0)
          = [((0 : Int), (1 : Int), (1 : Int))] from by decide,
      show ((gC1.get_neighbors 0 1 1).filter fun t => t.2.2 ≠ 0)
          = [((0 : Int), (0 : Int), (1 : Int))] from by decide]
    rw [show (List.countP (fun t => t.2.2 == gC1.get 0 0)
          [((0 : Int), (1 : Int), (1 : Int))]) = 1 from by decide,
      show (List.countP (fun t => t.2.2 == gC1.get 0 1)
          [((0 : Int), (0 : Int), (1 : Int))]) = 1 from by decide]
    norm_num
    simp

/-- A 2×2 grid with no occupied cell. -/
def gC1e : GridWorld :=
  { height := 2, width := 2, num_colors := 1, grid := fun _ => 0,
    empty_cells := {((0 : Int), (0 : Int)), ((0 : Int), (1 : Int)),
      ((1 : Int), (0 : Int)), ((1 : Int), (1 : Int))} }

theorem clustering_quality_spec_w :
    (0 ≤ calculate_clustering_quality gC1 ∧ calculate_clustering_quality gC1 ≤ 1)
    ∧ calculate_clustering_quality gC1e = 0 :=
  ⟨(clustering_quality_spec gC1).1, (clustering_quality_spec gC1e).2.2 (by decide)⟩

/-! ### Claim C10: `set`/`get` store any integer unvalidated -/

/-- Claim C10: for every in-bounds coordinate and EVERY integer `v` —
including `v < 0` and `v > num_colors` — `set` stores `v` into the array with
no validation of the value, and a subsequent `get` returns exactly `v`. -/
theorem set_get_roundtrip (g : GridWorld) (row col v : Int)
    (h : g.is_valid row col = true) :
    (g.set row col v).get row col = v ∧ (g.set row col v).grid (row, col) = v := by
  have hv : (g.set row col v).grid (row, col) = v := by
    rw [GridWorld.set, if_pos h]
    simp
  have hvalid : (g.set row col v).is_valid row col = g.is_valid row col := by
    rw [GridWorld.set]
    split <;> rfl
  refine ⟨?_, hv⟩
  rw [GridWorld.get, hvalid, if_pos h, hv]

/-- A 2×2 all-empty grid with one color. -/
def gC10 : GridWorld :=
  { height := 2, width := 2, num_colors := 1, grid := fun _ => 0,
    empty_cells := {((0 : Int), (0 : Int)), ((0 : Int), (1 : Int)),
      ((1 : Int), (0 : Int)), ((1 : Int), (1 : Int))} }

theorem set_get_roundtrip_w :
    (gC10.set 1 1 (-5)).get 1 1 = -5 ∧ (gC10.set 0 1 99).get 0 1 = 99 :=
  ⟨(set_get_roundtrip gC10 1 1 (-5) (by decide)).1,
    (set_get_roundtrip gC10 0 1 99 (by decide)).1⟩

/-! ### `GridWorld.__init__`: randomized fill -/

/-- `all_positions = [(r, c) for r in range(height) for c in range(width)]`. -/
def allPositions (height width : Int) : List (Int × Int) :=
  (List.range height.toNat).flatMap fun (r : Nat) =>
    (List.range width.toNat).map fun (c : Nat) => ((r : Int), (c : Int))

/-- The inner placement loop for one color: `for _ in range(count)`, writing
the color at the next shuffled position while any position remains
(`pos_idx < len(all_positions)` in the source). -/
def placeColor (color : Int) :
    (Int × Int → Int) → List (Int × Int) → Nat → ((Int × Int → Int) × List (Int × Int))
  | cells, positions, 0 => (cells, positions)
  | cells, [], _ + 1 => (cells, [])
  | cells, p :: ps, n + 1 => placeColor color (Function.update cells p color) ps n

/-- The outer placement loop `for color in range(1, num_colors + 1)`: each
color places `objects_per_color` objects plus one more when
`color <= remainder`, consuming the shuffled position list sequentially. -/
def placeColors (opc rem : Int) :
    (Int × Int → Int) → List (Int × Int) → List Int → ((Int × Int → Int) × List (Int × Int))
  | cells, positions, [] => (cells, positions)
  | cells, positions, color :: rest =>
    let count := (opc + if color ≤ rem then 1 else 0).toNat
    let cp := placeColor color cells positions count
    placeColors opc rem cp.1 cp.2 rest

/-- The colors `range(1, num_colors + 1)` in loop order. -/
def colorList (numColors : Int) : List Int :=
  (List.range numColors.toNat).map fun (i : Nat) => (i : Int) + 1

/-- `GridWorld.__init__` from `src/objects/grid.py`.  `fillPercentage` is the
percentage (0–100) of cells to populate; `shuffled` stands for the result of
`random.shuffle(all_positions)`, supplied as an explicit input.  A negative
dimension makes `np.zeros` raise `ValueError`; `num_colors == 0` makes
`num_objects // num_colors` raise `ZeroDivisionError`; nothing else raises.
Python `//` and `%` on ints are floor division and floor modulus
(`Int.fdiv` / `Int.fmod`), and `int(...)` truncates toward zero. -/
def gridworldInit (height width numColors : Int) (fillPercentage : ℚ)
    (shuffled : List (Int × Int)) : Except PyError GridWorld :=
  if height < 0 ∨ width < 0 then .error .valueError
  else if numColors = 0 then .error .zeroDivisionError
  else
    let totalCells : Int := height * width
    let numObjects : Int := ratTrunc ((totalCells : ℚ) * fillPercentage / 100)
    let objectsPerColor : Int := Int.fdiv numObjects numColors
    let remainder : Int := Int.fmod numObjects numColors
    let cp := placeColors objectsPerColor remainder (fun _ => 0) shuffled (colorList numColors)
    .ok { height := height, width := width, num_colors := numColors, grid := cp.1,
          empty_cells := ((allPositions height width).filter fun p => cp.1 p = 0).toFinset }

/-! ### Claim C9: no fail-fast validation at construction -/

/-- Claim C9 (amended): `GridWorld.__init__` does not validate its arguments.
Construction succeeds for EVERY fill fraction — including values outside
[0, 1] — and for negative `num_colors`, as long as the dimensions are
non-negative and `num_colors ≠ 0`; the only failures are the incidental
`ZeroDivisionError` at `num_colors = 0` and numpy's `ValueError` for a
negative dimension, neither a descriptive configuration-error signal. -/
theorem gridworld_init_no_validation (height width numColors : Int) (fill : ℚ)
    (shuffled : List (Int × Int)) :
    (0 ≤ height → 0 ≤ width → numColors ≠ 0 →
      (gridworldInit height width numColors fill shuffled).isOk = true)
    ∧ (0 ≤ height → 0 ≤ width → numColors = 0 →
      gridworldInit height width numColors fill shuffled = .error .zeroDivisionError)
    ∧ (height < 0 ∨ width < 0 →
      gridworldInit height width numColors fill shuffled = .error .valueError) := by
  refine ⟨fun hh hw hK => ?_, fun hh hw hK => ?_, fun h => ?_⟩
  · rw [gridworldInit, if_neg (by omega), if_neg hK]
    rfl
  · rw [gridworldInit, if_neg (by omega), if_pos hK]
  · rw [gridworldInit, if_pos h]

/-- Claim C9 counterexample: fill percentage 200 — fill fraction 2.0, outside
[0, 1] — is accepted: construction of a 2×2 one-color grid succeeds instead
of failing fast with a configuration error. -/
theorem gridworld_init_counterexample :
    (1 : ℚ) < 200 / 100
    ∧ (gridworldInit 2 2 1 200 (allPositions 2 2)).isOk = true := by
  constructor
  · norm_num
  · rw [gridworldInit, if_neg (by omega), if_neg (by omega)]
    rfl

theorem gridworld_init_no_validation_w :
    (gridworldInit 1 1 (-2) (-50) []).isOk = true
    ∧ gridworldInit 2 2 0 20 [] = .error .zeroDivisionError
    ∧ gridworldInit (-1) 2 1 20 [] = .error .valueError :=
  ⟨(gridworld_init_no_validation 1 1 (-2) (-50) []).1 (by omega) (by omega) (by omega),
    (gridworld_init_no_validation 2 2 0 20 []).2.1 (by omega) (by omega) rfl,
    (gridworld_init_no_validation (-1) 2 1 20 []).2.2 (by omega)⟩

/-! ### Characterizing the placement loops -/

theorem placeColor_fst (color : Int) (positions : List (Int × Int)) (n : Nat)
    (cells : Int × Int → Int) (q : Int × Int) :
    (placeColor color cells positions n).1 q
      = if q ∈ positions.take n then color else cells q := by
  induction n generalizing positions cells with
  | zero => simp [placeColor]
  | succ n ih =>
    cases positions with
    | nil => simp [placeColor]
    | cons p ps =>
      rw [List.take_succ_cons]
      simp only [placeColor]
      rw [ih ps (Function.update cells p color)]
      by_cases h : q ∈ ps.take n
      · simp [h]
      · by_cases hq : q = p <;> simp [h, hq, Function.update_apply]

theorem placeColor_snd (color : Int) (positions : List (Int × Int)) (n : Nat)
    (cells : Int × Int → Int) :
    (placeColor color cells positions n).2 = positions.drop n := by
  induction n generalizing positions cells with
  | zero => simp [placeColor]
  | succ n ih =>
    cases positions with
    | nil => simp [placeColor]
    | cons p ps => simp [placeColor, ih]

/-- Which color the placement loops assign to a position: the first color of
the list whose consumed segment of the shuffled positions contains it. -/
def assignedColor (opc rem : Int) :
    List (Int × Int) → List Int → (Int × Int) → Option Int
  | _, [], _ => none
  | positions, color :: rest, q =>
    let count := (opc + if color ≤ rem then 1 else 0).toNat
    if q ∈ positions.take count then some color
    else assignedColor opc rem (positions.drop count) rest q

theorem assignedColor_mem (opc rem : Int) (colors : List Int) :
    ∀ (ps : List (Int × Int)) (q : Int × Int) (c : Int),
    assignedColor opc rem ps colors q = some c → q ∈ ps := by
  induction colors with
  | nil => intro ps q c h; simp [assignedColor] at h
  | cons color rest ih =>
    intro ps q c h
    simp only [assignedColor] at h
    by_cases hq : q ∈ ps.take ((opc + if color ≤ rem then 1 else 0).toNat)
    · exact List.take_subset _ _ hq
    · rw [if_neg hq] at h
      exact List.drop_subset _ _ (ih _ _ _ h)

theorem assignedColor_color (opc rem : Int) (colors : List Int) :
    ∀ (ps : List (Int × Int)) (q : Int × Int) (c : Int),
    assignedColor opc rem ps colors q = some c → c ∈ colors := by
  induction colors with
  | nil => intro ps q c h; simp [assignedColor] at h
  | cons color rest ih =>
    intro ps q c h
    simp only [assignedColor] at h
    by_cases hq : q ∈ ps.take ((opc + if color ≤ rem then 1 else 0).toNat)
    · rw [if_pos hq, Option.some_inj] at h
      exact h ▸ List.mem_cons_self color rest
    · rw [if_neg hq] at h
      exact List.mem_cons_of_mem color (ih _ _ _ h)

theorem placeColors_fst (opc rem : Int) (colors : List Int) :
    ∀ (cells : Int × Int → Int) (ps : List (Int × Int)), ps.Nodup →
    ∀ q, (placeColors opc rem cells ps colors).1 q
      = (assignedColor opc rem ps colors q).getD (cells q) := by
  induction colors with
  | nil => intro cells ps _ q; simp [placeColors, assignedColor]
  | cons color rest ih =>
    intro cells ps hps q
    simp only [placeColors, assignedColor]
    rw [placeColor_snd]
    set cnt := (opc + if color ≤ rem then 1 else 0).toNat with hcnt
    rw [ih _ _ (((List.drop_sublist cnt ps)).nodup hps), placeColor_fst]
    by_cases hq : q ∈ ps.take cnt
    · rw [if_pos hq, if_pos hq]
      have hnone : assignedColor opc rem (ps.drop cnt) rest q = none := by
        cases hA : assignedColor opc rem (ps.drop cnt) rest q with
        | none => rfl
        | some c =>
          have hd := assignedColor_mem opc rem rest _ _ _ hA
          exact absurd hd fun hd => (List.disjoint_take_drop hps le_rfl) hq hd
      rw [hnone]
      rfl
    · rw [if_neg hq, if_neg hq]

theorem countP_or_of_disjoint {α : Type} (L : List α) (p q : α → Bool)
    (h : ∀ a ∈ L, ¬(p a = true ∧ q a = true)) :
    (L.countP fun a => p a || q a) = L.countP p + L.countP q := by
  induction L with
  | nil => rfl
  | cons a L ih =>
    simp only [List.countP_cons]
    rw [ih fun x hx => h x (List.mem_cons_of_mem a hx)]
    have ha := h a (List.mem_cons_self a L)
    cases hp : p a <;> cases hq : q a <;> simp [hp, hq] at ha ⊢ <;> omega

theorem countP_mem_eq_length {α : Type} [DecidableEq α] (L : List α) (hL : L.Nodup) :
    ∀ (S : List α) (p : α → Bool), (∀ x, p x = true ↔ x ∈ S) → S.Nodup →
    (∀ x ∈ S, x ∈ L) → L.countP p = S.length := by
  intro S
  induction S with
  | nil =>
    intro p hp _ _
    rw [List.countP_eq_zero.mpr fun a _ => by simp [hp a]]
    rfl
  | cons s S ih =>
    intro p hp hS hsub
    have hsS : s ∉ S := (List.nodup_cons.mp hS).1
    have h1 : ∀ a ∈ L, p a = ((a == s) || decide (a ∈ S)) := by
      intro a _
      by_cases h : a = s
      · subst h
        have hpa : p a = true := (hp a).mpr (List.mem_cons_self a S)
        simp [hpa]
      · by_cases h2 : a ∈ S
        · have hpa : p a = true := (hp a).mpr (List.mem_cons_of_mem s h2)
          simp [hpa, h2]
        · have hpa : p a = false := by
            cases hpa : p a
            · rfl
            · exact absurd ((hp a).mp hpa) (by simp [h, h2])
          simp [hpa, h, h2]
    rw [List.countP_congr fun a ha => by rw [h1 a ha]]
    rw [countP_or_of_disjoint L (fun a => a == s) (fun a => decide (a ∈ S))
      (by intro a _ ⟨ha1, ha2⟩
          rw [beq_iff_eq] at ha1
          rw [ha1] at ha2
          exact hsS (of_decide_eq_true ha2))]
    rw [ih (fun a => decide (a ∈ S)) (fun x => by simp) (List.nodup_cons.mp hS).2
      fun x hx => hsub x (List.mem_cons_of_mem s hx)]
    have hc : (L.countP fun a => a == s) = L.count s := rfl
    rw [hc, List.count_eq_one_of_mem hL (hsub s (List.mem_cons_self s S))]
    simp [Nat.add_comm]

/-- Total number of placements requested by the outer loop over `colors`. -/
def colorsCountSum (opc rem : Int) (colors : List Int) : Nat :=
  (colors.map fun color => (opc + if color ≤ rem then 1 else 0).toNat).sum

theorem countP_assignedColor (opc rem c : Int) (colors : List Int) :
    ∀ (ps L : List (Int × Int)),
    ps.Nodup → L.Nodup → (∀ x ∈ ps, x ∈ L) → colors.Nodup →
    colorsCountSum opc rem colors ≤ ps.length → c ∈ colors →
    (L.countP fun q => assignedColor opc rem ps colors q == some c)
      = (opc + if c ≤ rem then 1 else 0).toNat := by
  induction colors with
  | nil => intro ps L _ _ _ _ _ hc; exact absurd hc (List.not_mem_nil c)
  | cons color rest ih =>
    intro ps L hps hL hsub hnd hsum hc
    have hsum' : (opc + if color ≤ rem then 1 else 0).toNat
        + colorsCountSum opc rem rest ≤ ps.length := by
      have : colorsCountSum opc rem (color :: rest)
          = (opc + if color ≤ rem then 1 else 0).toNat + colorsCountSum opc rem rest := by
        simp [colorsCountSum]
      omega
    set cnt := (opc + if color ≤ rem then 1 else 0).toNat with hcnt
    have hcnt_le : cnt ≤ ps.length := by omega
    have htake_nodup : (ps.take cnt).Nodup := (List.take_sublist cnt ps).nodup hps
    have hdrop_nodup : (ps.take cnt).Disjoint (ps.drop cnt) :=
      List.disjoint_take_drop hps le_rfl
    rcases List.mem_cons.mp hc with rfl | hcr
    · have hcolor_notin : c ∉ rest := (List.nodup_cons.mp hnd).1
      have hpt : ∀ q ∈ L, (assignedColor opc rem ps (c :: rest) q == some c)
          = decide (q ∈ ps.take cnt) := by
        intro q _
        simp only [assignedColor, ← hcnt]
        by_cases hq : q ∈ ps.take cnt
        · simp [hq]
        · rw [if_neg hq]
          simp only [decide_eq_false hq]
          cases hA : assignedColor opc rem (ps.drop cnt) rest q with
          | none => rfl
          | some c2 =>
            have : c2 ∈ rest := assignedColor_color opc rem rest _ _ _ hA
            have hne : c2 ≠ c := fun h => hcolor_notin (h ▸ this)
            simp [hne]
      rw [List.countP_congr fun q hq => by rw [hpt q hq]]
      rw [countP_mem_eq_length L hL (ps.take cnt) (fun q => decide (q ∈ ps.take cnt))
        (fun x => by simp) htake_nodup fun x hx => hsub x (List.take_subset cnt ps hx)]
      rw [List.length_take]
      omega
    · have hcne : c ≠ color := by
        intro h
        exact (List.nodup_cons.mp hnd).1 (h ▸ hcr)
      have hpt : ∀ q ∈ L, (assignedColor opc rem ps (color :: rest) q == some c)
          = (assignedColor opc rem (ps.drop cnt) rest q == some c) := by
        intro q _
        simp only [assignedColor, ← hcnt]
        by_cases hq : q ∈ ps.take cnt
        · rw [if_pos hq]
          cases hA : assignedColor opc rem (ps.drop cnt) rest q with
          | none => simp [Ne.symm hcne]
          | some c2 =>
            have : q ∈ ps.drop cnt := assignedColor_mem opc rem rest _ _ _ hA
            exact absurd this fun hd => hdrop_nodup hq hd
        · rw [if_neg hq]
      rw [List.countP_congr fun q hq => by rw [hpt q hq]]
      refine ih (ps.drop cnt) L ((List.drop_sublist cnt ps).nodup hps) hL
        (fun x hx => hsub x (List.drop_subset cnt ps hx)) (List.nodup_cons.mp hnd).2 ?_ hcr
      rw [List.length_drop]
      omega

theorem countP_assignedColor_isSome (opc rem : Int) (colors : List Int) :
    ∀ (ps L : List (Int × Int)),
    ps.Nodup → L.Nodup → (∀ x ∈ ps, x ∈ L) →
    colorsCountSum opc rem colors ≤ ps.length →
    (L.countP fun q => (assignedColor opc rem ps colors q).isSome)
      = colorsCountSum opc rem colors := by
  induction colors with
  | nil => intro ps L _ _ _ _; simp [assignedColor, colorsCountSum]
  | cons color rest ih =>
    intro ps L hps hL hsub hsum
    have hsplit : colorsCountSum opc rem (color :: rest)
        = (opc + if color ≤ rem then 1 else 0).toNat + colorsCountSum opc rem rest := by
      simp [colorsCountSum]
    set cnt := (opc + if color ≤ rem then 1 else 0).toNat with hcnt
    have hcnt_le : cnt ≤ ps.length := by omega
    have hdis : (ps.take cnt).Disjoint (ps.drop cnt) := List.disjoint_take_drop hps le_rfl
    have hpt : ∀ q ∈ L, ((assignedColor opc rem ps (color :: rest) q).isSome
        = (decide (q ∈ ps.take cnt) || (assignedColor opc rem (ps.drop cnt) rest q).isSome)) := by
      intro q _
      simp only [assignedColor, ← hcnt]
      by_cases hq : q ∈ ps.take cnt
      · simp [hq]
      · rw [if_neg hq]
        simp [hq]
    rw [List.countP_congr fun q hq => by rw [hpt q hq]]
    rw [countP_or_of_disjoint L _ _
      (by intro a _ ⟨ha1, ha2⟩
          have h1 : a ∈ ps.take cnt := of_decide_eq_true ha1
          cases hA : assignedColor opc rem (ps.drop cnt) rest a with
          | none => rw [hA] at ha2; exact absurd ha2 (by simp)
          | some c2 =>
            have : a ∈ ps.drop cnt := assignedColor_mem opc rem rest _ _ _ hA
            exact hdis h1 this)]
    rw [countP_mem_eq_length L hL (ps.take cnt) (fun q => decide (q ∈ ps.take cnt))
      (fun x => by simp) ((List.take_sublist cnt ps).nodup hps)
      (fun x hx => hsub x (List.take_subset cnt ps hx))]
    rw [ih (ps.drop cnt) L ((List.drop_sublist cnt ps).nodup hps) hL
      (fun x hx => hsub x (List.drop_subset cnt ps hx))
      (by rw [List.length_drop]; omega)]
    rw [List.length_take, hsplit]
    omega

theorem colorList_append (m : Nat) :
    colorList ((m + 1 : Nat) : Int) = colorList (m : Nat) ++ [(m : Int) + 1] := by
  rw [colorList, colorList]
  simp [List.range_succ]

theorem colorsCountSum_colorList (opc rem : Int) (hopc : 0 ≤ opc) :
    ∀ m : Nat, colorsCountSum opc rem (colorList (m : Int))
      = m * opc.toNat + min rem.toNat m := by
  intro m
  induction m with
  | zero => simp [colorsCountSum, colorList]
  | succ m ih =>
    rw [colorList_append, colorsCountSum, List.map_append, List.sum_append]
    rw [show ((colorList (m : Nat)).map fun color =>
        (opc + if color ≤ rem then 1 else 0).toNat).sum
      = colorsCountSum opc rem (colorList (m : Int)) from rfl]
    rw [ih]
    by_cases h : (m : Int) + 1 ≤ rem
    · rw [show ([(m : Int) + 1].map fun color =>
          (opc + if color ≤ rem then 1 else 0).toNat) = [(opc + 1).toNat] from by simp [h]]
      have h1 : (opc + 1).toNat = opc.toNat + 1 := by omega
      have h2 : m < rem.toNat := by omega
      simp only [List.sum_cons, List.sum_nil, h1]
      rw [Nat.succ_mul]
      omega
    · rw [show ([(m : Int) + 1].map fun color =>
          (opc + if color ≤ rem then 1 else 0).toNat) = [(opc + 0).toNat] from by simp [h]]
      have h2 : ¬(m < rem.toNat) := by omega
      simp only [List.sum_cons, List.sum_nil]
      rw [Nat.succ_mul]
      omega

theorem colorsCountSum_eq (n K : Int) (hn : 0 ≤ n) (hK : 0 < K) :
    colorsCountSum (n.fdiv K) (n.fmod K) (colorList K) = n.toNat := by
  have h1 : 0 ≤ n.fdiv K := Int.fdiv_nonneg hn (le_of_lt hK)
  have h2 : 0 ≤ n.fmod K := Int.fmod_nonneg hn (le_of_lt hK)
  have h3 : n.fmod K < K := Int.fmod_lt_of_pos n hK
  have h4 : K * n.fdiv K + n.fmod K = n := Int.fdiv_add_fmod n K
  have h5 := colorsCountSum_colorList (n.fdiv K) (n.fmod K) h1 K.toNat
  rw [show ((K.toNat : Nat) : Int) = K from Int.toNat_of_nonneg (le_of_lt hK)] at h5
  rw [h5]
  have hprod : 0 ≤ K * n.fdiv K := mul_nonneg (le_of_lt hK) h1
  have h6 : K.toNat * (n.fdiv K).toNat = (K * n.fdiv K).toNat := by
    refine Int.natCast_inj.mp ?_
    rw [Nat.cast_mul, Int.toNat_of_nonneg (le_of_lt hK), Int.toNat_of_nonneg h1,
      Int.toNat_of_nonneg hprod]
  omega

theorem mem_colorList (numColors c : Int) :
    c ∈ colorList numColors ↔ 1 ≤ c ∧ c ≤ numColors := by
  rw [colorList]
  constructor
  · intro h
    rcases List.mem_map.mp h with ⟨i, hi, rfl⟩
    rw [List.mem_range] at hi
    omega
  · intro h
    refine List.mem_map.mpr ⟨(c - 1).toNat, ?_, by omega⟩
    rw [List.mem_range]
    omega

theorem colorList_nodup (numColors : Int) : (colorList numColors).Nodup :=
  List.Nodup.map (fun a b h => by omega) (List.nodup_range _)

theorem allPositions_nodup (height width : Int) : (allPositions height width).Nodup := by
  rw [allPositions, List.nodup_flatMap]
  constructor
  · intro r _
    refine List.Nodup.map ?_ (List.nodup_range _)
    intro a b h
    have h2 := congrArg Prod.snd h
    simp only at h2
    omega
  · refine List.Pairwise.imp ?_ (List.nodup_range _)
    intro r1 r2 hne x hx1 hx2
    rcases List.mem_map.mp hx1 with ⟨c1, _, rfl⟩
    rcases List.mem_map.mp hx2 with ⟨c2, _, h⟩
    have h1 := congrArg Prod.fst h
    simp only at h1
    exact hne (by omega)

theorem allPositions_length (height width : Int) :
    (allPositions height width).length = height.toNat * width.toNat := by
  rw [allPositions, List.length_flatMap]
  rw [show (List.map (List.length ∘ fun (r : Nat) =>
      (List.range width.toNat).map fun (c : Nat) => ((r : Int), (c : Int)))
      (List.range height.toNat))
    = List.map (fun _ => width.toNat) (List.range height.toNat) from
      List.map_congr_left fun r _ => by simp]
  rw [List.map_const', List.sum_replicate, List.length_range, smul_eq_mul]

theorem numObjects_bounds (height width : Int) (fill : ℚ) (hh : 0 ≤ height) (hw : 0 ≤ width)
    (hf0 : 0 ≤ fill) (hf1 : fill ≤ 100) :
    0 ≤ ratTrunc (((height * width : Int) : ℚ) * fill / 100)
    ∧ ratTrunc (((height * width : Int) : ℚ) * fill / 100) ≤ height * width := by
  have hT : (0 : ℚ) ≤ ((height * width : Int) : ℚ) := by
    have h := mul_nonneg hh hw
    exact_mod_cast h
  have hq0 : 0 ≤ ((height * width : Int) : ℚ) * fill / 100 := by positivity
  have hq1 : ((height * width : Int) : ℚ) * fill / 100 ≤ ((height * width : Int) : ℚ) := by
    rw [div_le_iff₀ (by norm_num : (0 : ℚ) < 100)]
    calc ((height * width : Int) : ℚ) * fill ≤ ((height * width : Int) : ℚ) * 100 :=
          mul_le_mul_of_nonneg_left hf1 hT
    _ = ((height * width : Int) : ℚ) * 100 := rfl
  rw [ratTrunc, if_pos hq0]
  refine ⟨Int.floor_nonneg.mpr hq0, ?_⟩
  have h := Int.floor_le_floor hq1
  rwa [Int.floor_intCast] at h

/-- Claim C4 (amended): with positive dimensions, a positive number of colors
K, and a fill percentage in [0, 100] (fraction `f` in [0, 1]), construction
places exactly `int(H*W*f)` objects — Python `int()` TRUNCATES, it does not
round — at distinct positions, each color `c` receiving `total // K`
placements plus one more exactly when `c ≤ total % K`, so per-color counts
differ by at most 1 and the remainder goes to the first colors in increasing
order. -/
theorem gridworld_init_counts (height width numColors : Int) (fill : ℚ)
    (shuffled : List (Int × Int)) (g : GridWorld)
    (hh : 0 < height) (hw : 0 < width) (hK : 0 < numColors)
    (hf0 : 0 ≤ fill) (hf1 : fill ≤ 100)
    (hperm : shuffled.Perm (allPositions height width))
    (hok : gridworldInit height width numColors fill shuffled = .ok g) :
    ((allPositions height width).countP fun p => decide (g.grid p ≠ 0))
        = (ratTrunc (((height * width : Int) : ℚ) * fill / 100)).toNat
    ∧ ∀ c : Int, 1 ≤ c → c ≤ numColors →
        ((allPositions height width).countP fun p => decide (g.grid p = c))
          = (Int.fdiv (ratTrunc (((height * width : Int) : ℚ) * fill / 100)) numColors
              + if c ≤ Int.fmod (ratTrunc (((height * width : Int) : ℚ) * fill / 100)) numColors
                then 1 else 0).toNat := by
  set n := ratTrunc (((height * width : Int) : ℚ) * fill / 100) with hn
  obtain ⟨hn0, hnT⟩ :=
    numObjects_bounds height width fill (le_of_lt hh) (le_of_lt hw) hf0 hf1
  have hgrid : g.grid = (placeColors (n.fdiv numColors) (n.fmod numColors)
      (fun _ => 0) shuffled (colorList numColors)).1 := by
    rw [gridworldInit, if_neg (by omega), if_neg (by omega)] at hok
    injection hok with h2
    rw [← h2]
  have hA_nodup := allPositions_nodup height width
  have hs_nodup : shuffled.Nodup := hperm.nodup_iff.mpr hA_nodup
  have hsub : ∀ x ∈ shuffled, x ∈ allPositions height width :=
    fun x hx => hperm.mem_iff.mp hx
  have hlen : shuffled.length = height.toNat * width.toNat := by
    rw [hperm.length_eq, allPositions_length]
  have hcast : ((height.toNat * width.toNat : Nat) : Int) = height * width := by
    rw [Nat.cast_mul, Int.toNat_of_nonneg (le_of_lt hh), Int.toNat_of_nonneg (le_of_lt hw)]
  have hsum : colorsCountSum (n.fdiv numColors) (n.fmod numColors) (colorList numColors)
      ≤ shuffled.length := by
    rw [colorsCountSum_eq n numColors hn0 hK, hlen]
    omega
  constructor
  · have hpt : ∀ p ∈ allPositions height width,
        decide (g.grid p ≠ 0) = (assignedColor (n.fdiv numColors) (n.fmod numColors)
          shuffled (colorList numColors) p).isSome := by
      intro p _
      rw [hgrid, placeColors_fst _ _ _ _ _ hs_nodup]
      cases hA : assignedColor (n.fdiv numColors) (n.fmod numColors)
          shuffled (colorList numColors) p with
      | none => simp
      | some c =>
        have hc := (mem_colorList numColors c).mp
          (assignedColor_color _ _ _ _ _ _ hA)
        simp only [Option.getD_some, Option.isSome_some]
        simp only [decide_eq_true_eq]
        omega
    rw [List.countP_congr fun p hp => by rw [hpt p hp]]
    rw [countP_assignedColor_isSome _ _ (colorList numColors) shuffled
      (allPositions height width) hs_nodup hA_nodup hsub hsum]
    exact colorsCountSum_eq n numColors hn0 hK
  · intro c hc1 hc2
    have hcmem : c ∈ colorList numColors := (mem_colorList numColors c).mpr ⟨hc1, hc2⟩
    have hpt : ∀ p ∈ allPositions height width,
        decide (g.grid p = c) = (assignedColor (n.fdiv numColors) (n.fmod numColors)
          shuffled (colorList numColors) p == some c) := by
      intro p _
      rw [hgrid, placeColors_fst _ _ _ _ _ hs_nodup]
      cases hA : assignedColor (n.fdiv numColors) (n.fmod numColors)
          shuffled (colorList numColors) p with
      | none =>
        simp only [Option.getD_none]
        have : ¬((0 : Int) = c) := by omega
        simp [this]
      | some c2 =>
        simp only [Option.getD_some]
        by_cases h : c2 = c <;> simp [h]
    rw [List.countP_congr fun p hp => by rw [hpt p hp]]
    exact countP_assignedColor _ _ c (colorList numColors) shuffled
      (allPositions height width) hs_nodup hA_nodup hsub (colorList_nodup _) hsum hcmem

/-- Claim C4 counterexample: a 3×3 one-color grid with fill percentage 30
(fill fraction 0.3) places `int(9 * 0.3) = int(2.7) = 2` objects, while the
claimed `round(9 * 0.3) = round(2.7) = 3`: the code truncates, it does not
round. -/
theorem gridworld_init_counts_counterexample :
    ((gridworldInit 3 3 1 30 (allPositions 3 3)).map fun g =>
        (allPositions 3 3).countP fun p => decide (g.grid p ≠ 0)) = .ok 2
    ∧ round ((3 * 3 : ℚ) * (30 / 100)) = 3 := by
  constructor
  · have hrt : ratTrunc (((3 * 3 : Int) : ℚ) * 30 / 100) = 2 := by
      rw [show (((3 * 3 : Int) : ℚ) * 30 / 100) = 27 / 10 from by norm_num,
        ratTrunc, if_pos (by norm_num)]
      rw [Int.floor_eq_iff]
      norm_num
    rw [gridworldInit, if_neg (by omega), if_neg (by omega)]
    simp only [Except.map, hrt, Except.ok.injEq]
    decide
  · rw [show ((3 * 3 : ℚ) * (30 / 100)) = 27 / 10 from by norm_num, round_eq,
      show ((27 : ℚ) / 10 + 1 / 2) = 16 / 5 from by norm_num]
    rw [Int.floor_eq_iff]
    norm_num

theorem gridworld_init_counts_w :
    ((gridworldInit 2 2 2 50 (allPositions 2 2)).map fun g =>
        (((allPositions 2 2).countP fun p => decide (g.grid p ≠ 0)),
         ((allPositions 2 2).countP fun p => decide (g.grid p = 1)),
         ((allPositions 2 2).countP fun p => decide (g.grid p = 2))))
      = .ok (2, 1, 1) := by
  have hok : ∃ g, gridworldInit 2 2 2 50 (allPositions 2 2) = .ok g := by
    rw [gridworldInit, if_neg (by omega), if_neg (by omega)]
    exact ⟨_, rfl⟩
  obtain ⟨g, hg⟩ := hok
  have h := gridworld_init_counts 2 2 2 50 (allPositions 2 2) g (by omega) (by omega)
    (by omega) (by norm_num) (by norm_num) (List.Perm.refl _) hg
  have hrt : ratTrunc (((2 * 2 : Int) : ℚ) * 50 / 100) = 2 := by
    rw [show (((2 * 2 : Int) : ℚ) * 50 / 100) = ((2 : Int) : ℚ) from by norm_num,
      ratTrunc, if_pos (by norm_num), Int.floor_intCast]
  rw [hg]
  simp only [Except.map]
  rw [h.1, h.2 1 (by omega) (by omega), h.2 2 (by omega) (by omega), hrt]
  simp only [Except.ok.injEq]
  decide

/-! ### The rule-based ant of `src/objects/ant.py`

`RuleBasedAnt` operates on the `Grid` class that `matrix.py` imports
(`from objects.grid import Grid`); that class is code of this repository
missing from src/ — `grid.py` defines only `GridWorld`, whose array
attribute is named `grid`, while the ant reads and writes `self.grid.cells`.
`Grid` is therefore modelled from the spec below; the ant itself is embedded
from the source. -/

/-- Modelled from the spec: the missing `Grid` class (spec §4.1 GridWorld:
cell array, bounded `get` returning 0 out of bounds, local similarity over
all in-bounds neighbors), with the argument order its callers use —
`Grid(width, height, num_colors, fill)` in `matrix.py`, `cells[y, x]`,
`get(x, y)` and `get_local_similarity(x, y, color)` in `RuleBasedAnt`,
`x` ranging over `[0, width)` and `y` over `[0, height)`. -/
structure Grid where
  width : Int
  height : Int
  num_colors : Int
  cells : Int × Int → Int

/-- Modelled from the spec: bounds check of the missing `Grid` class. -/
def Grid.inBounds (g : Grid) (x y : Int) : Bool :=
  decide (0 ≤ x ∧ x < g.width ∧ 0 ≤ y ∧ y < g.height)

/-- Modelled from the spec: `Grid.get(x, y)` — the cell value, or 0 when out
of bounds. -/
def Grid.get (g : Grid) (x y : Int) : Int :=
  if g.inBounds x y then g.cells (y, x) else 0

/-- Modelled from the spec: `Grid.get_local_similarity(x, y, color)` — the
fraction of all in-bounds neighbors (offsets `(dx, dy)`) whose value equals
the color; 0.0 when there is no in-bounds neighbor. -/
def Grid.get_local_similarity (g : Grid) (x y color : Int) : ℚ :=
  let neighbors := neighborOffsets.filter fun d => g.inBounds (x + d.1) (y + d.2)
  if neighbors = [] then 0
  else ((neighbors.countP fun d => g.cells (y + d.2, x + d.1) == color : Nat) : ℚ)
    / (neighbors.length : ℚ)

/-- The ant state: base-class fields `x`, `y`, `carrying` plus the
`RuleBasedAnt` thresholds `k1`, `k2`.  The shared grid reference is passed to
the step functions explicitly. -/
structure RuleBasedAnt where
  x : Int
  y : Int
  carrying : Option Int
  k1 : ℚ
  k2 : ℚ

/-- The eight movement `DIRECTIONS` `(dx, dy)` of `RuleBasedAnt`, in source
order. -/
def DIRECTIONS : List (Int × Int) :=
  [(-1, -1), (-1, 0), (-1, 1), (0, -1), (0, 1), (1, -1), (1, 0), (1, 1)]

/-- `RuleBasedAnt._pickup_rule`: with empty hands on an occupied cell, pick
with probability `(k1 / (k1 + sim))^2`; `r` is the `random.random()` draw,
and the pick clears `cells[y, x]`. -/
def RuleBasedAnt.pickup_rule (a : RuleBasedAnt) (g : Grid) (cell_value : Int) (r : ℚ) :
    RuleBasedAnt × Grid :=
  if a.carrying = none ∧ cell_value ≠ 0 then
    let sim := g.get_local_similarity a.x a.y cell_value
    let pick_prob := (a.k1 / (a.k1 + sim)) ^ 2
    if r < pick_prob then
      ({ a with carrying := some cell_value },
       { g with cells := Function.update g.cells (a.y, a.x) 0 })
    else (a, g)
  else (a, g)

/-- `RuleBasedAnt._drop_rule`: carrying over an empty cell, drop with
probability `(sim / (k2 + sim))^2`; `r` is the `random.random()` draw, and
the drop writes the carried color into `cells[y, x]`. -/
def RuleBasedAnt.drop_rule (a : RuleBasedAnt) (g : Grid) (cell_value : Int) (r : ℚ) :
    RuleBasedAnt × Grid :=
  match a.carrying with
  | none => (a, g)
  | some col =>
    if cell_value = 0 then
      let sim := g.get_local_similarity a.x a.y col
      let drop_prob := (sim / (a.k2 + sim)) ^ 2
      if r < drop_prob then
        ({ a with carrying := none },
         { g with cells := Function.update g.cells (a.y, a.x) col })
      else (a, g)
    else (a, g)

/-- The `valid_moves` list of `RuleBasedAnt._random_movement`. -/
def RuleBasedAnt.validMoves (a : RuleBasedAnt) (g : Grid) : List (Int × Int) :=
  DIRECTIONS.filter fun d =>
    decide (0 ≤ a.x + d.1 ∧ a.x + d.1 < g.width ∧ 0 ≤ a.y + d.2 ∧ a.y + d.2 < g.height)

/-- `RuleBasedAnt._random_movement`: move by a valid offset chosen by the
`random.choice` index `choice`, or stay when no offset is valid. -/
def RuleBasedAnt.random_movement (a : RuleBasedAnt) (g : Grid) (choice : Nat) :
    RuleBasedAnt :=
  let valid_moves := a.validMoves g
  if h : valid_moves = [] then a
  else
    let d := valid_moves.get ⟨choice % valid_moves.length,
      Nat.mod_lt _ (List.length_pos.mpr h)⟩
    { a with x := a.x + d.1, y := a.y + d.2 }

/-- `RuleBasedAnt.step`: read the current cell once, then pickup rule, drop
rule (both judged against that start-of-step value), then random movement. -/
def RuleBasedAnt.step (a : RuleBasedAnt) (g : Grid) (rPick rDrop : ℚ) (choice : Nat) :
    RuleBasedAnt × Grid :=
  let cell_value := g.get a.x a.y
  let pg := a.pickup_rule g cell_value rPick
  let dg := pg.1.drop_rule pg.2 cell_value rDrop
  (dg.1.random_movement dg.2 choice, dg.2)

theorem random_movement_carrying (a : RuleBasedAnt) (g : Grid) (choice : Nat) :
    (a.random_movement g choice).carrying = a.carrying := by
  rw [RuleBasedAnt.random_movement]
  split <;> rfl

theorem drop_rule_occupied (a : RuleBasedAnt) (g : Grid) (cv : Int) (r : ℚ)
    (h : cv ≠ 0) : a.drop_rule g cv r = (a, g) := by
  cases hca : a.carrying with
  | none => simp [RuleBasedAnt.drop_rule, hca]
  | some col => simp [RuleBasedAnt.drop_rule, hca, h]

/-- Claim C2: for a `RuleBasedAnt` with empty hands whose current cell holds
a color `c ≠ 0`, when the pick draw is below `(k1/(k1+s))^2` — `s` the local
similarity at the ant's position for `c` — `step()` sets `carrying` to `c`
and clears exactly the ant's own cell of the shared grid to 0, modifying no
other cell. -/
theorem pickup_fires_effect (a : RuleBasedAnt) (g : Grid) (rPick rDrop : ℚ)
    (choice : Nat) (c : Int)
    (hcar : a.carrying = none) (hcell : g.get a.x a.y = c) (hc : c ≠ 0)
    (hr : rPick < (a.k1 / (a.k1 + g.get_local_similarity a.x a.y c)) ^ 2) :
    (a.step g rPick rDrop choice).1.carrying = some c
    ∧ (a.step g rPick rDrop choice).2.cells (a.y, a.x) = 0
    ∧ ∀ q : Int × Int, q ≠ (a.y, a.x) →
        (a.step g rPick rDrop choice).2.cells q = g.cells q := by
  have hpick : a.pickup_rule g c rPick
      = ({ a with carrying := some c },
         { g with cells := Function.update g.cells (a.y, a.x) 0 }) := by
    rw [RuleBasedAnt.pickup_rule, if_pos ⟨hcar, hc⟩]
    simp only [if_pos hr]
  have hstep : a.step g rPick rDrop choice
      = (({ a with carrying := some c } : RuleBasedAnt).random_movement
           { g with cells := Function.update g.cells (a.y, a.x) 0 } choice,
         { g with cells := Function.update g.cells (a.y, a.x) 0 }) := by
    rw [RuleBasedAnt.step]
    simp only [hcell, hpick]
    rw [drop_rule_occupied _ _ _ _ hc]
  rw [hstep]
  refine ⟨?_, ?_, ?_⟩
  · rw [random_movement_carrying]
  · exact Function.update_same _ _ _
  · intro q hq
    exact Function.update_noteq hq _ _

/-- A demo ant and grid for the C2 witness: empty-handed ant at (1, 1) of a
3×3 grid whose only object (color 1) sits under the ant. -/
def antW2 : RuleBasedAnt := { x := 1, y := 1, carrying := none, k1 := 3 / 10, k2 := 15 / 100 }

def gridW2 : Grid :=
  { width := 3, height := 3, num_colors := 2,
    cells := fun p => if p = ((1 : Int), (1 : Int)) then 1 else 0 }

theorem gridW2_similarity : gridW2.get_local_similarity 1 1 1 = 0 := by
  rw [Grid.get_local_similarity]
  rw [show (neighborOffsets.filter fun d => gridW2.inBounds (1 + d.1) (1 + d.2))
      = neighborOffsets from by decide]
  rw [show (neighborOffsets.countP fun d => gridW2.cells (1 + d.2, 1 + d.1) == 1) = 0
      from by decide]
  norm_num

theorem pickup_fires_effect_w :
    (antW2.step gridW2 0 0 0).1.carrying = some 1
    ∧ (antW2.step gridW2 0 0 0).2.cells (1, 1) = 0
    ∧ (antW2.step gridW2 0 0 0).2.cells (0, 0) = 0 := by
  have hr : (0 : ℚ) < (antW2.k1 / (antW2.k1 + gridW2.get_local_similarity antW2.x antW2.y 1)) ^ 2 := by
    rw [show antW2.x = 1 from rfl, show antW2.y = 1 from rfl, gridW2_similarity,
      show antW2.k1 = 3 / 10 from rfl]
    norm_num
  have h := pickup_fires_effect antW2 gridW2 0 0 0 1 rfl (by decide) (by decide) hr
  have hp : ((antW2.y : Int), (antW2.x : Int)) = ((1 : Int), (1 : Int)) := rfl
  refine ⟨h.1, ?_, ?_⟩
  · rw [← hp]
    exact h.2.1
  · rw [h.2.2 ((0 : Int), (0 : Int)) (by rw [hp]; decide)]
    decide

/-- The guard of the pickup branch, draw included: empty hands, occupied
cell, and the uniform draw below the pick probability. -/
def pickFires (a : RuleBasedAnt) (g : Grid) (cell_value : Int) (r : ℚ) : Prop :=
  a.carrying = none ∧ cell_value ≠ 0
    ∧ r < (a.k1 / (a.k1 + g.get_local_similarity a.x a.y cell_value)) ^ 2

/-- The guard of the drop branch, draw included: carrying some color, empty
cell, and the uniform draw below the drop probability. -/
def dropFires (a : RuleBasedAnt) (g : Grid) (cell_value : Int) (r : ℚ) : Prop :=
  ∃ col, a.carrying = some col ∧ cell_value = 0
    ∧ r < (g.get_local_similarity a.x a.y col
        / (a.k2 + g.get_local_similarity a.x a.y col)) ^ 2

theorem pickup_rule_not_fires (a : RuleBasedAnt) (g : Grid) (cv : Int) (r : ℚ)
    (h : ¬pickFires a g cv r) : a.pickup_rule g cv r = (a, g) := by
  simp only [RuleBasedAnt.pickup_rule]
  split_ifs with h1 h2
  · exact absurd ⟨h1.1, h1.2, h2⟩ h
  · rfl
  · rfl

theorem drop_rule_not_fires (a : RuleBasedAnt) (g : Grid) (cv : Int) (r : ℚ)
    (h : ¬dropFires a g cv r) : a.drop_rule g cv r = (a, g) := by
  cases hca : a.carrying with
  | none => simp [RuleBasedAnt.drop_rule, hca]
  | some col =>
    simp only [RuleBasedAnt.drop_rule, hca]
    split_ifs with h1 h2
    · exact absurd ⟨col, hca, h1, h2⟩ h
    · rfl
    · rfl

/-- Claim C6: pick and drop are mutually exclusive within a single step —
both guards are evaluated against the cell value observed at the start of
the step, one requiring it non-zero and the other zero — and the ant's
current cell can change from occupied to empty only because the pick branch
fired, and from empty to occupied only because the drop branch fired. -/
theorem step_pick_drop_exclusive (a : RuleBasedAnt) (g : Grid) (rPick rDrop : ℚ)
    (choice : Nat) :
    ¬(pickFires a g (g.get a.x a.y) rPick
        ∧ dropFires (a.pickup_rule g (g.get a.x a.y) rPick).1
            (a.pickup_rule g (g.get a.x a.y) rPick).2 (g.get a.x a.y) rDrop)
    ∧ (g.get a.x a.y ≠ 0 ∧ (a.step g rPick rDrop choice).2.get a.x a.y = 0 →
        pickFires a g (g.get a.x a.y) rPick)
    ∧ (g.get a.x a.y = 0 ∧ (a.step g rPick rDrop choice).2.get a.x a.y ≠ 0 →
        dropFires (a.pickup_rule g (g.get a.x a.y) rPick).1
            (a.pickup_rule g (g.get a.x a.y) rPick).2 (g.get a.x a.y) rDrop) := by
  refine ⟨?_, ?_, ?_⟩
  · rintro ⟨⟨_, hne, _⟩, ⟨col, _, heq, _⟩⟩
    exact hne heq
  · rintro ⟨hne, hafter⟩
    by_cases hp : pickFires a g (g.get a.x a.y) rPick
    · exact hp
    · exfalso
      have hpick := pickup_rule_not_fires a g (g.get a.x a.y) rPick hp
      have hstep2 : (a.step g rPick rDrop choice).2 = g := by
        rw [RuleBasedAnt.step]
        simp only [hpick]
        rw [drop_rule_occupied _ _ _ _ hne]
      rw [hstep2] at hafter
      exact hne hafter
  · rintro ⟨h0, hafter⟩
    by_cases hd : dropFires (a.pickup_rule g (g.get a.x a.y) rPick).1
        (a.pickup_rule g (g.get a.x a.y) rPick).2 (g.get a.x a.y) rDrop
    · exact hd
    · exfalso
      have hp : ¬pickFires a g (g.get a.x a.y) rPick := by
        rintro ⟨_, hne, _⟩
        exact hne h0
      have hpick := pickup_rule_not_fires a g (g.get a.x a.y) rPick hp
      rw [hpick] at hd
      have hdrop := drop_rule_not_fires a g (g.get a.x a.y) rDrop hd
      have hstep2 : (a.step g rPick rDrop choice).2 = g := by
        rw [RuleBasedAnt.step]
        simp only [hpick, hdrop]
      rw [hstep2] at hafter
      exact hafter h0

theorem step_pick_drop_exclusive_w :
    ¬(pickFires antW2 gridW2 (gridW2.get antW2.x antW2.y) 0
        ∧ dropFires (antW2.pickup_rule gridW2 (gridW2.get antW2.x antW2.y) 0).1
            (antW2.pickup_rule gridW2 (gridW2.get antW2.x antW2.y) 0).2
            (gridW2.get antW2.x antW2.y) 0) :=
  (step_pick_drop_exclusive antW2 gridW2 0 0 0).1

theorem pickup_rule_pos (a : RuleBasedAnt) (g : Grid) (cv : Int) (r : ℚ) :
    (a.pickup_rule g cv r).1.x = a.x ∧ (a.pickup_rule g cv r).1.y = a.y
    ∧ (a.pickup_rule g cv r).2.width = g.width
    ∧ (a.pickup_rule g cv r).2.height = g.height := by
  simp only [RuleBasedAnt.pickup_rule]
  split_ifs <;> exact ⟨rfl, rfl, rfl, rfl⟩

theorem drop_rule_pos (a : RuleBasedAnt) (g : Grid) (cv : Int) (r : ℚ) :
    (a.drop_rule g cv r).1.x = a.x ∧ (a.drop_rule g cv r).1.y = a.y
    ∧ (a.drop_rule g cv r).2.width = g.width
    ∧ (a.drop_rule g cv r).2.height = g.height := by
  cases hca : a.carrying with
  | none => simp [RuleBasedAnt.drop_rule, hca]
  | some col =>
    simp only [RuleBasedAnt.drop_rule, hca]
    split_ifs <;> exact ⟨rfl, rfl, rfl, rfl⟩

theorem mem_validMoves (b : RuleBasedAnt) (g : Grid) (d : Int × Int)
    (hd : d ∈ b.validMoves g) :
    (0 ≤ b.x + d.1 ∧ b.x + d.1 < g.width ∧ 0 ≤ b.y + d.2 ∧ b.y + d.2 < g.height)
    ∧ d ≠ (0, 0) := by
  rw [RuleBasedAnt.validMoves] at hd
  have h1 := List.mem_filter.mp hd
  refine ⟨of_decide_eq_true h1.2, ?_⟩
  have h2 := h1.1
  fin_cases h2 <;> decide

theorem random_movement_cases (b : RuleBasedAnt) (g : Grid) (choice : Nat) :
    (b.validMoves g = [] ∧ b.random_movement g choice = b)
    ∨ (∃ d ∈ b.validMoves g, (b.random_movement g choice).x = b.x + d.1
        ∧ (b.random_movement g choice).y = b.y + d.2) := by
  rw [RuleBasedAnt.random_movement]
  split
  next h => exact Or.inl ⟨h, rfl⟩
  next h => exact Or.inr ⟨_, List.get_mem _ _ _, rfl, rfl⟩

/-- Claim C8: from an in-bounds position, the position after every `step()`
stays within `[0, W) × [0, H)`: movement keeps only in-bounds offsets and is
not itself probabilistic — it picks one of the valid offsets (at the index
`choice` supplies, standing for the uniform draw) whenever any exists, so
the position then changes, and on a 1×1 grid no offset is valid so the ant
never moves. -/
theorem movement_in_bounds (a : RuleBasedAnt) (g : Grid) (rPick rDrop : ℚ) (choice : Nat)
    (hx0 : 0 ≤ a.x) (hxw : a.x < g.width) (hy0 : 0 ≤ a.y) (hyh : a.y < g.height) :
    (0 ≤ (a.step g rPick rDrop choice).1.x ∧ (a.step g rPick rDrop choice).1.x < g.width
      ∧ 0 ≤ (a.step g rPick rDrop choice).1.y ∧ (a.step g rPick rDrop choice).1.y < g.height)
    ∧ (g.width = 1 → g.height = 1 →
        (a.step g rPick rDrop choice).1.x = a.x ∧ (a.step g rPick rDrop choice).1.y = a.y)
    ∧ (a.validMoves g ≠ [] →
        ((a.step g rPick rDrop choice).1.x, (a.step g rPick rDrop choice).1.y)
          ≠ (a.x, a.y)) := by
  obtain ⟨hp1, hp2, hp3, hp4⟩ := pickup_rule_pos a g (g.get a.x a.y) rPick
  obtain ⟨hd1, hd2, hd3, hd4⟩ := drop_rule_pos (a.pickup_rule g (g.get a.x a.y) rPick).1
    (a.pickup_rule g (g.get a.x a.y) rPick).2 (g.get a.x a.y) rDrop
  set b := ((a.pickup_rule g (g.get a.x a.y) rPick).1.drop_rule
    (a.pickup_rule g (g.get a.x a.y) rPick).2 (g.get a.x a.y) rDrop).1 with hbdef
  set g2 := ((a.pickup_rule g (g.get a.x a.y) rPick).1.drop_rule
    (a.pickup_rule g (g.get a.x a.y) rPick).2 (g.get a.x a.y) rDrop).2 with hg2def
  have hbx : b.x = a.x := by rw [hbdef, hd1, hp1]
  have hby : b.y = a.y := by rw [hbdef, hd2, hp2]
  have hgw : g2.width = g.width := by rw [hg2def, hd3, hp3]
  have hgh : g2.height = g.height := by rw [hg2def, hd4, hp4]
  have hstep1 : (a.step g rPick rDrop choice).1 = b.random_movement g2 choice := rfl
  have hvm : b.validMoves g2 = a.validMoves g := by
    rw [RuleBasedAnt.validMoves, RuleBasedAnt.validMoves, hbx, hby, hgw, hgh]
  rcases random_movement_cases b g2 choice with ⟨hnil, heq⟩ | ⟨d, hd, hmx, hmy⟩
  · rw [hstep1, heq]
    refine ⟨⟨by omega, by omega, by omega, by omega⟩, fun _ _ => ⟨hbx, hby⟩, fun hne => ?_⟩
    rw [hvm] at hnil
    exact absurd hnil hne
  · obtain ⟨⟨hb1, hb2, hb3, hb4⟩, hdne⟩ := mem_validMoves b g2 d hd
    rw [hgw] at hb2
    rw [hgh] at hb4
    rw [hbx] at hb1 hb2
    rw [hby] at hb3 hb4
    rw [hstep1, hmx, hmy, hbx, hby]
    refine ⟨⟨hb1, hb2, hb3, hb4⟩, fun hw1 hh1 => ?_, fun _ => ?_⟩
    · exfalso
      have hax : a.x = 0 := by omega
      have hay : a.y = 0 := by omega
      have hnil : a.validMoves g = [] := by
        rw [RuleBasedAnt.validMoves]
        refine List.filter_eq_nil_iff.mpr fun e he => ?_
        fin_cases he <;> simp only [hax, hay, hw1, hh1] <;> decide
      rw [hvm] at hd
      rw [hnil] at hd
      exact absurd hd (List.not_mem_nil d)
    · intro hcontra
      have h1 : a.x + d.1 = a.x := congrArg Prod.fst hcontra
      have h2 : a.y + d.2 = a.y := congrArg Prod.snd hcontra
      have hd1z : d.1 = 0 := by omega
      have hd2z : d.2 = 0 := by omega
      exact hdne (Prod.ext hd1z hd2z)

/-- A demo ant and grids for the C8 witness. -/
def antW8 : RuleBasedAnt := { x := 0, y := 0, carrying := none, k1 := 3 / 10, k2 := 15 / 100 }

def gridW8 : Grid := { width := 2, height := 2, num_colors := 1, cells := fun _ => 0 }

def gridW8one : Grid := { width := 1, height := 1, num_colors := 1, cells := fun _ => 0 }

theorem movement_in_bounds_w :
    (0 ≤ (antW8.step gridW8 0 0 0).1.x ∧ (antW8.step gridW8 0 0 0).1.x < gridW8.width
      ∧ 0 ≤ (antW8.step gridW8 0 0 0).1.y ∧ (antW8.step gridW8 0 0 0).1.y < gridW8.height)
    ∧ ((antW8.step gridW8one 0 0 0).1.x = antW8.x ∧ (antW8.step gridW8one 0 0 0).1.y = antW8.y)
    ∧ ((antW8.step gridW8 0 0 0).1.x, (antW8.step gridW8 0 0 0).1.y) ≠ (antW8.x, antW8.y) :=
  ⟨(movement_in_bounds antW8 gridW8 0 0 0 (by decide) (by decide) (by decide) (by decide)).1,
   (movement_in_bounds antW8 gridW8one 0 0 0
     (by decide) (by decide) (by decide) (by decide)).2.1 rfl rfl,
   (movement_in_bounds antW8 gridW8 0 0 0
     (by decide) (by decide) (by decide) (by decide)).2.2 (by decide)⟩

/-! ### `Simulation` of `src/objects/simulation.py` -/

/-- The base `Ant` class of `src/objects/ant.py`: `__init__(self, x, y)`
requires both coordinates and stores no grid reference. -/
structure Ant where
  x : Int
  y : Int
  carrying : Option Int

/-- The ant-creation loop of `Simulation.__init__`: each iteration executes
`Ant(self.grid)`, passing one positional argument where `Ant.__init__(self,
x, y)` requires two, so the first iteration raises `TypeError`; only
`num_ants = 0` runs the loop zero times and avoids it. -/
def createAnts (numAnts : Nat) : Except PyError (List Ant) :=
  match numAnts with
  | 0 => .ok []
  | _ + 1 => .error .typeError

/-- `Simulation.__init__` as written in the source: construct the GridWorld,
create the ants with `Ant(self.grid)`, then record one initial quality
sample. -/
def simulationInitSrc (height width numColors : Int) (fillPercentage : ℚ)
    (shuffled : List (Int × Int)) (numAnts : Nat) (numSteps : Nat) :
    Except PyError (GridWorld × List Ant × Nat × List ℚ) := do
  let g ← gridworldInit height width numColors fillPercentage shuffled
  let ants ← createAnts numAnts
  return (g, ants, numSteps, [calculate_clustering_quality g])

/-- Claim C3 (code bug): whenever the ant count is positive,
`Simulation.__init__` raises `TypeError` instead of creating ants: it calls
`Ant(self.grid)`, but `Ant.__init__(self, x, y)` requires two positional
coordinates and stores no grid reference (and the base `Ant` also lacks the
`step()` method that `Simulation.run` later calls on every ant). -/
theorem simulation_init_type_error (height width numColors : Int) (fill : ℚ)
    (shuffled : List (Int × Int)) (numAnts numSteps : Nat)
    (hok : (gridworldInit height width numColors fill shuffled).isOk = true)
    (hpos : 0 < numAnts) :
    simulationInitSrc height width numColors fill shuffled numAnts numSteps
      = .error .typeError := by
  rw [simulationInitSrc]
  cases hg : gridworldInit height width numColors fill shuffled with
  | error e =>
    rw [hg] at hok
    simp [Except.isOk, Except.toBool] at hok
  | ok g =>
    cases numAnts with
    | zero => omega
    | succ n =>
      simp only [createAnts]
      rfl

theorem simulation_init_type_error_w :
    simulationInitSrc 2 2 1 20 (allPositions 2 2) 1 0 = .error .typeError :=
  simulation_init_type_error 2 2 1 20 (allPositions 2 2) 1 0
    (by rw [gridworldInit, if_neg (by omega), if_neg (by omega)]; rfl) (by omega)

/-- Modelled from the spec: the stepping agent `Simulation` is meant to hold.
The source stores base `Ant` objects, which carry no grid reference and have
no `step()` (the C3 bug), and the working `RuleBasedAnt` targets the missing
`Grid` class, so the agent used inside `Simulation` is modelled from spec
§4.2 over the `GridWorld` of src: pick and drop judged against the
start-of-step cell value, then uniform random movement, all through
`GridWorld.get` / `GridWorld.set` / `get_local_similarity`. -/
structure SpecAnt where
  row : Int
  col : Int
  carrying : Option Int
  k1 : ℚ
  k2 : ℚ

/-- Modelled from the spec: the in-bounds movement offsets of a `SpecAnt`. -/
def SpecAnt.validMoves (a : SpecAnt) (g : GridWorld) : List (Int × Int) :=
  DIRECTIONS.filter fun d => g.is_valid (a.row + d.1) (a.col + d.2)

/-- Modelled from the spec: one `SpecAnt` step (pick-or-drop, then move),
with the two uniform draws and the movement choice taken from the inputs. -/
def SpecAnt.step (a : SpecAnt) (g : GridWorld) (rPick rDrop : ℚ) (choice : Nat) :
    SpecAnt × GridWorld :=
  let cell_value := g.get a.row a.col
  let s1 :=
    if a.carrying = none ∧ cell_value ≠ 0 then
      let sim := g.get_local_similarity a.row a.col cell_value
      if rPick < (a.k1 / (a.k1 + sim)) ^ 2 then
        ({ a with carrying := some cell_value }, g.set a.row a.col 0)
      else (a, g)
    else (a, g)
  let s2 :=
    match s1.1.carrying with
    | none => s1
    | some col =>
      if cell_value = 0 then
        let sim := s1.2.get_local_similarity a.row a.col col
        if rDrop < (sim / (a.k2 + sim)) ^ 2 then
          ({ s1.1 with carrying := none }, s1.2.set a.row a.col col)
        else s1
      else s1
  let vm := s2.1.validMoves s2.2
  if h : vm = [] then s2
  else
    let d := vm.get ⟨choice % vm.length, Nat.mod_lt _ (List.length_pos.mpr h)⟩
    ({ s2.1 with row := s2.1.row + d.1, col := s2.1.col + d.2 }, s2.2)

/-- The `Simulation` state of `src/objects/simulation.py`, its ants being
the spec-modelled agents (see C3). -/
structure Simulation where
  grid : GridWorld
  ants : List SpecAnt
  num_steps : Nat
  quality_history : List ℚ

/-- The tail of `Simulation.__init__`, given the constructed grid and the
created ants: record one initial quality sample. -/
def simulationInit (g : GridWorld) (ants : List SpecAnt) (numSteps : Nat) : Simulation :=
  { grid := g, ants := ants, num_steps := numSteps,
    quality_history := [calculate_clustering_quality g] }

/-- The inner `for ant in self.ants` loop of one tick: each ant steps on the
shared grid in creation order, drawing from the tape at its index. -/
def stepAnts (tape : Nat → ℚ × ℚ × Nat) :
    GridWorld → List SpecAnt → Nat → GridWorld × List SpecAnt
  | g, [], _ => (g, [])
  | g, a :: rest, i =>
    let t := tape i
    let ag := a.step g t.1 t.2.1 t.2.2
    let gr := stepAnts tape ag.2 rest (i + 1)
    (gr.1, ag.1 :: gr.2)

/-- One iteration of the `for step in range(self.num_steps)` loop of
`Simulation.run` at loop index `stepIdx`: all ants step, the quality is
computed, and it is appended to the history exactly when
`(step + 1) % track_interval == 0 or step == num_steps - 1`. -/
def Simulation.tick (s : Simulation) (stepIdx : Nat) (track_interval : Nat)
    (tape : Nat → Nat → ℚ × ℚ × Nat) : Simulation :=
  let ga := stepAnts (tape stepIdx) s.grid s.ants 0
  let quality := calculate_clustering_quality ga.1
  { grid := ga.1, ants := ga.2, num_steps := s.num_steps,
    quality_history :=
      if (stepIdx + 1) % track_interval = 0 ∨ stepIdx = s.num_steps - 1 then
        s.quality_history ++ [quality]
      else s.quality_history }

/-- The first `n` iterations of the loop of `Simulation.run`. -/
def Simulation.runTicks (s : Simulation) (tI : Nat) (tape : Nat → Nat → ℚ × ℚ × Nat) :
    Nat → Simulation
  | 0 => s
  | n + 1 => (s.runTicks tI tape n).tick n tI tape

/-- `Simulation.run`: execute the loop for all `num_steps` ticks. -/
def Simulation.run (s : Simulation) (tI : Nat) (tape : Nat → Nat → ℚ × ℚ × Nat) :
    Simulation :=
  s.runTicks tI tape s.num_steps

theorem tick_num_steps (s : Simulation) (i tI : Nat) (tape : Nat → Nat → ℚ × ℚ × Nat) :
    (s.tick i tI tape).num_steps = s.num_steps := rfl

theorem runTicks_num_steps (s : Simulation) (tI : Nat) (tape : Nat → Nat → ℚ × ℚ × Nat) :
    ∀ n, (s.runTicks tI tape n).num_steps = s.num_steps := by
  intro n
  induction n with
  | zero => rfl
  | succ n ih => rw [Simulation.runTicks, tick_num_steps, ih]

theorem tick_history (s : Simulation) (i tI : Nat) (tape : Nat → Nat → ℚ × ℚ × Nat) :
    ∃ l : List ℚ, (s.tick i tI tape).quality_history = s.quality_history ++ l
      ∧ l.length ≤ 1
      ∧ (l ≠ [] → (i + 1) % tI = 0 ∨ i = s.num_steps - 1) := by
  rw [Simulation.tick]
  by_cases h : (i + 1) % tI = 0 ∨ i = s.num_steps - 1
  · exact ⟨[calculate_clustering_quality (stepAnts (tape i) s.grid s.ants 0).1],
      by simp [h], by simp, fun _ => h⟩
  · exact ⟨[], by simp [h], by simp, fun hne => absurd rfl hne⟩

theorem runTicks_history_mono (s : Simulation) (tI : Nat)
    (tape : Nat → Nat → ℚ × ℚ × Nat) :
    ∀ n m : Nat, n ≤ m →
    (s.runTicks tI tape n).quality_history.length
      ≤ (s.runTicks tI tape m).quality_history.length := by
  intro n m hnm
  induction m with
  | zero =>
    have : n = 0 := by omega
    rw [this]
  | succ m ih =>
    rcases Nat.lt_or_ge n (m + 1) with h | h
    · have h1 := ih (by omega)
      obtain ⟨l, hl, _, _⟩ := tick_history (s.runTicks tI tape m) m tI tape
      rw [Simulation.runTicks, hl, List.length_append]
      omega
    · have : n = m + 1 := by omega
      rw [this]

theorem runTicks_history_prefix (s : Simulation) (tI : Nat)
    (tape : Nat → Nat → ℚ × ℚ × Nat) :
    ∀ n : Nat, ∃ l : List ℚ,
    (s.runTicks tI tape n).quality_history = s.quality_history ++ l := by
  intro n
  induction n with
  | zero => exact ⟨[], by simp [Simulation.runTicks]⟩
  | succ n ih =>
    obtain ⟨l1, hl1⟩ := ih
    obtain ⟨l2, hl2, _, _⟩ := tick_history (s.runTicks tI tape n) n tI tape
    rw [Simulation.runTicks]
    exact ⟨l1 ++ l2, by rw [hl2, hl1, List.append_assoc]⟩

theorem runTicks_history_length (s : Simulation) (tI : Nat)
    (tape : Nat → Nat → ℚ × ℚ × Nat) :
    ∀ n : Nat, n ≤ s.num_steps →
    (s.runTicks tI tape n).quality_history.length
      ≤ s.quality_history.length + n / tI + (if s.num_steps ≤ n then 1 else 0) := by
  intro n
  induction n with
  | zero =>
    intro _
    rw [Simulation.runTicks, Nat.zero_div]
    split <;> omega
  | succ n ih =>
    intro hle
    have hih := ih (by omega)
    obtain ⟨l, hl, hlen, hcond⟩ := tick_history (s.runTicks tI tape n) n tI tape
    rw [Simulation.runTicks, hl, List.length_append]
    rw [runTicks_num_steps] at hcond
    have hsd : (n + 1) / tI = n / tI + if tI ∣ (n + 1) then 1 else 0 := Nat.succ_div n tI
    by_cases hnil : l = []
    · rw [hnil]
      simp only [List.length_nil]
      split at hsd <;> split at hih <;> split <;> omega
    · rcases hcond hnil with h1 | h1
      · have hdvd : tI ∣ (n + 1) := Nat.dvd_of_mod_eq_zero h1
        rw [if_pos hdvd] at hsd
        split at hih <;> split <;> omega
      · have hTeq : s.num_steps = n + 1 := by omega
        split at hsd <;> split at hih <;> split <;> omega

/-- Claim C5: for every run of `T = num_steps` ticks with a positive tracking
interval, the quality history has length at most `T / trackInterval + 2`
(initial sample, periodic samples, final sample); its length never decreases
as more ticks run; its first element is the quality of the freshly
constructed grid, sampled by `__init__` before any ant steps; and with
`T = 0` the history is exactly that one initial entry. -/
theorem simulation_history_spec (g : GridWorld) (ants : List SpecAnt) (T : Nat)
    (tI : Nat) (tape : Nat → Nat → ℚ × ℚ × Nat) (htI : 0 < tI) :
    ((simulationInit g ants T).run tI tape).quality_history.length ≤ T / tI + 2
    ∧ (∀ n m : Nat, n ≤ m →
        ((simulationInit g ants T).runTicks tI tape n).quality_history.length
          ≤ ((simulationInit g ants T).runTicks tI tape m).quality_history.length)
    ∧ ((simulationInit g ants T).run tI tape).quality_history.head?
        = some (calculate_clustering_quality g)
    ∧ (T = 0 → ((simulationInit g ants T).run tI tape).quality_history
        = [calculate_clustering_quality g]) := by
  refine ⟨?_, runTicks_history_mono _ tI tape, ?_, fun hT => ?_⟩
  · have h := runTicks_history_length (simulationInit g ants T) tI tape T le_rfl
    have hT : (simulationInit g ants T).num_steps = T := rfl
    rw [Simulation.run, hT]
    rw [hT] at h
    have hlen : (simulationInit g ants T).quality_history.length = 1 := rfl
    rw [hlen, if_pos le_rfl] at h
    omega
  · obtain ⟨l, hl⟩ := runTicks_history_prefix (simulationInit g ants T) tI tape T
    rw [Simulation.run]
    have hT : (simulationInit g ants T).num_steps = T := rfl
    rw [hT, hl]
    rfl
  · subst hT
    rfl

/-- An empty 1×1 grid for the C5 witness. -/
def gW5 : GridWorld :=
  { height := 1, width := 1, num_colors := 1, grid := fun _ => 0,
    empty_cells := {((0 : Int), (0 : Int))} }

theorem simulation_history_spec_w :
    ((simulationInit gW5 [] 0).run 1 (fun _ _ => (0, 0, 0))).quality_history
      = [calculate_clustering_quality gW5]
    ∧ ((simulationInit gW5 [] 0).run 1 (fun _ _ => (0, 0, 0))).quality_history.length
      ≤ 0 / 1 + 2 :=
  ⟨(simulation_history_spec gW5 [] 0 1 (fun _ _ => (0, 0, 0)) (by omega)).2.2.2 rfl,
   (simulation_history_spec gW5 [] 0 1 (fun _ _ => (0, 0, 0)) (by omega)).1⟩
